import Mathlib

/-!
Verification of the knowledge-graph merge and layout subsystem.

The definitions below are shallow embeddings of the TypeScript source:
* `mergeGraphData` embeds the fragment accumulator `mergeGraphData` from
  `file-upload.tsx` (the typed interface: both node and edge arrays present).
* `mergeGraphDataDyn` embeds the same function over the dynamic (JSON) payloads
  where the `nodes`/`edges` arrays may be absent; a missing array access that
  would throw a `TypeError` at runtime is modelled as `Except.error`.
* `applyCircularLayout` embeds the radial layout of `knowledge-graph.tsx`.
* `extractICD10Codes` embeds the ICD-10 dedup loop of `Index.tsx`; the JS
  regular-expression engine is host functionality and is modelled as an opaque
  match enumerator passed as a parameter.

Positions are JavaScript numbers in the source; they are modelled as real
numbers.  String case-folding (`toLowerCase`/`toUpperCase`) and trimming are
modelled character-wise (`strToLower`/`strToUpper`/`strTrim`).
-/

/-- A graph node as declared in the client source (`id`, `label`, `type`,
position, adjacency).  The position type is a parameter: merge logic never
inspects positions, the layout engine instantiates it with `ℝ`. -/
structure GraphNode (α : Type) where
  id : String
  label : String
  type : String
  x : α
  y : α
  connections : List String
deriving DecidableEq, Repr

/-- A graph edge as declared in the client source. -/
structure GraphEdge where
  source : String
  target : String
  label : String
deriving DecidableEq, Repr

/-- JavaScript `String.prototype.toLowerCase`, modelled as a character-wise
lower-casing (the labels and keys in this system are ASCII). -/
def strToLower (s : String) : String := ⟨s.data.map Char.toLower⟩

/-- JavaScript `String.prototype.toUpperCase`, modelled character-wise. -/
def strToUpper (s : String) : String := ⟨s.data.map Char.toUpper⟩

/-- A well-formed graph payload: both arrays present. -/
structure GraphData (α : Type) where
  nodes : List (GraphNode α)
  edges : List GraphEdge
deriving DecidableEq, Repr

/-- The composite edge key `${e.source}-${e.target}-${e.label}`.toLowerCase()
used by the accumulator for edge deduplication. -/
def edgeKey (e : GraphEdge) : String :=
  strToLower (e.source ++ "-" ++ e.target ++ "-" ++ e.label)

/-- Shallow embedding of `mergeGraphData` from `file-upload.tsx` (lines 44-70):
if the existing graph is absent or has no nodes the new fragment is returned
verbatim; otherwise new nodes whose lower-cased label is already present and
new edges whose lower-cased composite key is already present are filtered out,
and the remainder is appended after the existing entries. -/
def mergeGraphData {α : Type} (existing : Option (GraphData α))
    (newData : GraphData α) : GraphData α :=
  match existing with
  | none => newData
  | some ex =>
    if ex.nodes.length = 0 then newData
    else
      let existingNodeLabels := ex.nodes.map (fun n => strToLower n.label)
      let existingEdgeKeys := ex.edges.map edgeKey
      let uniqueNewNodes :=
        newData.nodes.filter (fun n => !(existingNodeLabels.contains (strToLower n.label)))
      let uniqueNewEdges :=
        newData.edges.filter (fun e => !(existingEdgeKeys.contains (edgeKey e)))
      ⟨ex.nodes ++ uniqueNewNodes, ex.edges ++ uniqueNewEdges⟩

/-- No two nodes of the graph share a label when compared case-insensitively. -/
def nodupLabels {α : Type} (g : GraphData α) : Prop :=
  (g.nodes.map (fun n => strToLower n.label)).Nodup

/-- No two edges of the graph share the lower-cased composite key. -/
def nodupEdgeKeys {α : Type} (g : GraphData α) : Prop :=
  (g.edges.map edgeKey).Nodup

instance {α : Type} (g : GraphData α) : Decidable (nodupLabels g) := by
  unfold nodupLabels; infer_instance

instance {α : Type} (g : GraphData α) : Decidable (nodupEdgeKeys g) := by
  unfold nodupEdgeKeys; infer_instance

/-- Boolean `Set.has`-style membership agrees with propositional membership. -/
theorem not_contains_eq_decide_not_mem (l : List String) (s : String) :
    (!(l.contains s)) = decide (s ∉ l) := by
  by_cases h : s ∈ l <;> simp [h]

/-- If every incoming node label is already present, the node filter admits
nothing. -/
theorem filter_nodes_self_nil {α : Type} (labels : List String)
    (ns : List (GraphNode α)) (h : ∀ n ∈ ns, strToLower n.label ∈ labels) :
    ns.filter (fun n => !(labels.contains (strToLower n.label))) = [] := by
  rw [List.filter_eq_nil_iff]
  intro n hn
  simp [h n hn]

/-- If every incoming edge key is already present, the edge filter admits
nothing. -/
theorem filter_edges_self_nil (keys : List String) (es : List GraphEdge)
    (h : ∀ e ∈ es, edgeKey e ∈ keys) :
    es.filter (fun e => !(keys.contains (edgeKey e))) = [] := by
  rw [List.filter_eq_nil_iff]
  intro e he
  simp [h e he]

/-- Merging a fragment into a graph that already contains every one of its
node labels and edge keys returns the graph unchanged. -/
theorem merge_absorbed {α : Type} (m f : GraphData α)
    (hm : m.nodes.length ≠ 0)
    (hn : ∀ n ∈ f.nodes, strToLower n.label ∈ m.nodes.map (fun x => strToLower x.label))
    (he : ∀ e ∈ f.edges, edgeKey e ∈ m.edges.map edgeKey) :
    mergeGraphData (some m) f = m := by
  unfold mergeGraphData
  simp only [hm, if_false]
  rw [filter_nodes_self_nil _ _ hn, filter_edges_self_nil _ _ he]
  simp

/-- C1. The merge operation returns the fragment verbatim when the existing
graph is absent or has no nodes, and otherwise appends, after the existing
nodes and edges, exactly the incoming nodes whose lower-cased label is not
among the existing lower-cased labels and the incoming edges whose lower-cased
composite key is not among the existing keys, preserving insertion order
within each group. -/
theorem c1_merge_characterization {α : Type}
    (existing : Option (GraphData α)) (newData : GraphData α) :
    mergeGraphData existing newData =
      match existing with
      | none => newData
      | some ex =>
        if ex.nodes.length = 0 then newData
        else
          ⟨ex.nodes ++ newData.nodes.filter
              (fun n => decide
                (strToLower n.label ∉ ex.nodes.map (fun m => strToLower m.label))),
            ex.edges ++ newData.edges.filter
              (fun e => decide (edgeKey e ∉ ex.edges.map edgeKey))⟩ := by
  cases existing with
  | none => rfl
  | some ex =>
    simp only [mergeGraphData]
    by_cases h : ex.nodes.length = 0
    · simp [h]
    · simp only [h, if_false]
      congr 1
      · exact congrArg (ex.nodes ++ ·)
          (List.filter_congr fun n _ => not_contains_eq_decide_not_mem _ _)
      · exact congrArg (ex.edges ++ ·)
          (List.filter_congr fun e _ => not_contains_eq_decide_not_mem _ _)

/-- C3. Merging the same fragment a second time changes nothing: the result of
merging `f` into `mergeGraphData g f` is `mergeGraphData g f` itself (hence in
particular the node and edge sets agree). -/
theorem c3_merge_idempotent {α : Type} (g : Option (GraphData α))
    (f : GraphData α) :
    mergeGraphData (some (mergeGraphData g f)) f = mergeGraphData g f := by
  have self_case : mergeGraphData (some f) f = f := by
    by_cases hf : f.nodes.length = 0
    · unfold mergeGraphData
      simp [hf]
    · refine merge_absorbed f f hf ?_ ?_
      · intro n hn
        exact List.mem_map_of_mem _ hn
      · intro e he
        exact List.mem_map_of_mem _ he
  cases g with
  | none => simpa [mergeGraphData] using self_case
  | some ex =>
    by_cases he : ex.nodes.length = 0
    · have h1 : mergeGraphData (some ex) f = f := by
        unfold mergeGraphData
        simp [he]
      rw [h1, self_case]
    · set m := mergeGraphData (some ex) f with hm
      have hmdef : m = ⟨ex.nodes ++ f.nodes.filter
            (fun n => !((ex.nodes.map (fun x => strToLower x.label)).contains
              (strToLower n.label))),
          ex.edges ++ f.edges.filter
            (fun e => !((ex.edges.map edgeKey).contains (edgeKey e)))⟩ := by
        rw [hm]
        unfold mergeGraphData
        simp [he]
      have hmlen : m.nodes.length ≠ 0 := by
        rw [hmdef]
        simp only [List.length_append]
        intro hc
        exact he (by omega)
      refine merge_absorbed m f hmlen ?_ ?_
      · intro n hn
        by_cases hmem : strToLower n.label ∈ ex.nodes.map (fun x => strToLower x.label)
        · rw [hmdef]
          simp only [List.map_append, List.mem_append]
          exact Or.inl hmem
        · have hkeep : n ∈ f.nodes.filter
              (fun n => !((ex.nodes.map (fun x => strToLower x.label)).contains
                (strToLower n.label))) := by
            rw [List.mem_filter]
            refine ⟨hn, ?_⟩
            simp [hmem]
          rw [hmdef]
          simp only [List.map_append, List.mem_append]
          exact Or.inr (List.mem_map_of_mem _ hkeep)
      · intro e hedge
        by_cases hmem : edgeKey e ∈ ex.edges.map edgeKey
        · rw [hmdef]
          simp only [List.map_append, List.mem_append]
          exact Or.inl hmem
        · have hkeep : e ∈ f.edges.filter
              (fun e => !((ex.edges.map edgeKey).contains (edgeKey e))) := by
            rw [List.mem_filter]
            refine ⟨hedge, ?_⟩
            simp [hmem]
          rw [hmdef]
          simp only [List.map_append, List.mem_append]
          exact Or.inr (List.mem_map_of_mem _ hkeep)

/-- C2 counterexample. The seen-label set is *not* updated while the incoming
fragment is filtered: merging a fragment that itself contains the labels
"B" and "b" into the one-node graph labelled "A" yields a graph in which two
nodes share the lower-cased label "b", violating the claimed uniqueness
invariant. -/
theorem c2_counterexample :
    ¬ nodupLabels (mergeGraphData
      (some (⟨[⟨"a", "A", "condition", (), (), []⟩], []⟩ : GraphData Unit))
      ⟨[⟨"b", "B", "symptom", (), (), []⟩, ⟨"b2", "b", "symptom", (), (), []⟩],
        []⟩) := by
  decide

/-- C2 amended. The uniqueness invariant holds for the merged graph provided
the existing graph and the incoming fragment are each internally
duplicate-free: deduplication happens only between the fragment and the
existing graph (the seen-label set is not updated during the fragment pass, so
duplicates inside one fragment are not collapsed). -/
theorem c2_amended_merge_preserves_uniqueness {α : Type}
    (existing : Option (GraphData α)) (f : GraphData α)
    (hexn : ∀ g ∈ existing, nodupLabels g)
    (hexe : ∀ g ∈ existing, nodupEdgeKeys g)
    (hfn : nodupLabels f) (hfe : nodupEdgeKeys f) :
    nodupLabels (mergeGraphData existing f) ∧
      nodupEdgeKeys (mergeGraphData existing f) := by
  cases existing with
  | none => exact ⟨hfn, hfe⟩
  | some ex =>
    by_cases h : ex.nodes.length = 0
    · unfold mergeGraphData
      simp only [h, if_true]
      exact ⟨hfn, hfe⟩
    · have hex1 := hexn ex (by simp)
      have hex2 := hexe ex (by simp)
      unfold mergeGraphData
      simp only [h, if_false]
      constructor
      · unfold nodupLabels at *
        simp only [List.map_append]
        refine List.Nodup.append hex1 ?_ ?_
        · exact List.Nodup.sublist
            (List.Sublist.map _ (List.filter_sublist _)) hfn
        · intro x hx1 hx2
          simp only [List.mem_map] at hx2
          obtain ⟨n, hnf, hnx⟩ := hx2
          rw [List.mem_filter] at hnf
          have := hnf.2
          rw [Bool.not_eq_true'] at this
          have hnot : strToLower n.label ∉
              ex.nodes.map (fun x => strToLower x.label) := by simpa using this
          exact hnot (hnx ▸ hx1)
      · unfold nodupEdgeKeys at *
        simp only [List.map_append]
        refine List.Nodup.append hex2 ?_ ?_
        · exact List.Nodup.sublist
            (List.Sublist.map _ (List.filter_sublist _)) hfe
        · intro x hx1 hx2
          simp only [List.mem_map] at hx2
          obtain ⟨e, hef, hex⟩ := hx2
          rw [List.mem_filter] at hef
          have := hef.2
          rw [Bool.not_eq_true'] at this
          have hnot : edgeKey e ∉ ex.edges.map edgeKey := by simpa using this
          exact hnot (hex ▸ hx1)

/-- Witness for the amended C2 at a concrete existing graph and fragment. -/
theorem c2_amended_witness :
    nodupLabels (mergeGraphData
        (some (⟨[⟨"a", "Flu", "condition", (), (), []⟩],
          [⟨"a", "b", "treats"⟩]⟩ : GraphData Unit))
        ⟨[⟨"b", "Aspirin", "medication", (), (), []⟩], [⟨"a", "b", "Treats"⟩]⟩) ∧
      nodupEdgeKeys (mergeGraphData
        (some (⟨[⟨"a", "Flu", "condition", (), (), []⟩],
          [⟨"a", "b", "treats"⟩]⟩ : GraphData Unit))
        ⟨[⟨"b", "Aspirin", "medication", (), (), []⟩], [⟨"a", "b", "Treats"⟩]⟩) :=
  c2_amended_merge_preserves_uniqueness _ _
    (by decide) (by decide) (by decide) (by decide)

/-- A graph payload as it actually arrives from JSON: either array may be
absent (`undefined`). -/
structure RawGraphData (α : Type) where
  nodes : Option (List (GraphNode α))
  edges : Option (List GraphEdge)
deriving DecidableEq, Repr

/-- Shallow embedding of `mergeGraphData` over the dynamic payloads.  An
access to a missing array that would throw a `TypeError` at runtime
(`existing.edges.map`, `newData.nodes.filter`, `newData.edges.filter`) is
modelled as `Except.error`; the guard `!existing || !existing.nodes?.length`
uses optional chaining and therefore cannot throw. -/
def mergeGraphDataDyn {α : Type} (existing : Option (RawGraphData α))
    (newData : RawGraphData α) : Except String (RawGraphData α) :=
  match existing with
  | none => .ok newData
  | some ex =>
    match ex.nodes with
    | none => .ok newData
    | some exNodes =>
      if exNodes.length = 0 then .ok newData
      else
        let existingNodeLabels := exNodes.map (fun n => strToLower n.label)
        match ex.edges with
        | none => .error "TypeError: existing.edges is undefined"
        | some exEdges =>
          let existingEdgeKeys := exEdges.map edgeKey
          match newData.nodes with
          | none => .error "TypeError: newData.nodes is undefined"
          | some newNodes =>
            let uniqueNewNodes := newNodes.filter
              (fun n => !(existingNodeLabels.contains (strToLower n.label)))
            match newData.edges with
            | none => .error "TypeError: newData.edges is undefined"
            | some newEdges =>
              let uniqueNewEdges := newEdges.filter
                (fun e => !(existingEdgeKeys.contains (edgeKey e)))
              .ok ⟨some (exNodes ++ uniqueNewNodes),
                some (exEdges ++ uniqueNewEdges)⟩

/-- The `try`/`catch` around the merge in `processWithAI`: a successful merge
replaces the accumulated graph, an exception leaves it unchanged. -/
def mergeOrKeep {α : Type} (acc : Option (RawGraphData α))
    (frag : RawGraphData α) : Option (RawGraphData α) :=
  match mergeGraphDataDyn acc frag with
  | .ok g => some g
  | .error _ => acc

/-- C8 counterexample. Handing `mergeGraphData` a fragment missing both
arrays while the existing graph has a node raises a `TypeError` (the fragment
filter dereferences the missing `nodes` array) instead of treating the
fragment as empty and returning the existing graph. -/
theorem c8_counterexample :
    mergeGraphDataDyn
        (some (⟨some [⟨"a", "A", "condition", (), (), []⟩], some []⟩ :
          RawGraphData Unit))
        ⟨none, none⟩ =
      .error "TypeError: newData.nodes is undefined" := rfl

/-- C8 amended. When the existing graph has at least one node and the
fragment is missing its `nodes` or `edges` array, the merge itself raises
(`Except.error`); the `try`/`catch` in the caller then keeps the accumulated
graph unchanged, so the malformed fragment is dropped at the call site rather
than absorbed by the merge. -/
theorem c8_amended_malformed_fragment_kept_by_catch {α : Type}
    (exNodes : List (GraphNode α)) (exEdges : List GraphEdge)
    (frag : RawGraphData α) (hne : exNodes.length ≠ 0)
    (hmal : frag.nodes = none ∨ frag.edges = none) :
    (∃ msg, mergeGraphDataDyn
        (some (⟨some exNodes, some exEdges⟩ : RawGraphData α)) frag =
      .error msg) ∧
      mergeOrKeep (some (⟨some exNodes, some exEdges⟩ : RawGraphData α)) frag =
        some ⟨some exNodes, some exEdges⟩ := by
  have herr : ∃ msg, mergeGraphDataDyn
      (some (⟨some exNodes, some exEdges⟩ : RawGraphData α)) frag =
      .error msg := by
    unfold mergeGraphDataDyn
    simp only [hne, if_false]
    rcases hmal with h | h
    · rw [h]
      exact ⟨_, rfl⟩
    · cases hn : frag.nodes with
      | none => exact ⟨_, rfl⟩
      | some ns =>
        rw [h]
        exact ⟨_, rfl⟩
  refine ⟨herr, ?_⟩
  obtain ⟨msg, hmsg⟩ := herr
  unfold mergeOrKeep
  rw [hmsg]

/-- Witness for the amended C8 at a concrete nonempty graph and a fragment
missing both arrays. -/
theorem c8_amended_witness :
    (∃ msg, mergeGraphDataDyn
        (some (⟨some [⟨"a", "A", "condition", (), (), []⟩], some []⟩ :
          RawGraphData Unit)) ⟨none, some []⟩ = .error msg) ∧
      mergeOrKeep
          (some (⟨some [⟨"a", "A", "condition", (), (), []⟩], some []⟩ :
            RawGraphData Unit)) ⟨none, some []⟩ =
        some ⟨some [⟨"a", "A", "condition", (), (), []⟩], some []⟩ :=
  c8_amended_malformed_fragment_kept_by_catch _ _ _ (by decide) (Or.inl rfl)

/-- JavaScript `String.prototype.trim`, modelled as dropping leading and
trailing whitespace characters. -/
def strTrim (s : String) : String :=
  ⟨((s.data.dropWhile Char.isWhitespace).reverse.dropWhile
      Char.isWhitespace).reverse⟩

/-- Does the second list occur at the head of the first? -/
def listStartsWith : List Char → List Char → Bool
  | _, [] => true
  | [], _ :: _ => false
  | c :: cs, d :: ds => c == d && listStartsWith cs ds

/-- Does the second list occur contiguously anywhere in the first? -/
def listHasSub : List Char → List Char → Bool
  | [], sub => sub.isEmpty
  | c :: rest, sub => listStartsWith (c :: rest) sub || listHasSub rest sub

/-- JavaScript `String.prototype.includes`. -/
def stringIncludes (s sub : String) : Bool := listHasSub s.data sub.data

/-- The medical-content verdict computed by `extract-knowledge/index.ts`:
the classifier reply is trimmed and upper-cased, and the content is accepted
as medical only if the reply mentions `MEDICAL` but not `NON-MEDICAL`. -/
def isMedicalVerdict (content : String) : Bool :=
  let v := strToUpper (strTrim content)
  stringIncludes v "MEDICAL" && !(stringIncludes v "NON-MEDICAL")

/-- The JSON body and HTTP status of an `extract-knowledge` response as seen
by the client. -/
structure ExtractResponse (α : Type) where
  status : Nat
  error : Option String
  isMedical : Option Bool
  nodes : Option (List (GraphNode α))
  edges : Option (List GraphEdge)

/-- The HTTP 400 rejection produced when the verdict is non-medical. -/
def nonMedicalResponse (α : Type) : ExtractResponse α :=
  ⟨400,
    some ("Non-medical data detected. Please upload medical records, " ++
      "patient data, prescriptions, lab results, medical imaging, or other " ++
      "healthcare-related information."),
    some false, none, none⟩

/-- The classification gate of the serve handler: a non-medical verdict
returns the 400 rejection before extraction is attempted; otherwise the
handler proceeds (modelled as `none`). -/
def classificationGate (α : Type) (content : String) :
    Option (ExtractResponse α) :=
  if isMedicalVerdict content then none else some (nonMedicalResponse α)

/-- JavaScript truthiness of an optional string field. -/
def truthyOptStr : Option String → Bool
  | none => false
  | some s => !s.isEmpty

/-- The response handling in `processWithAI`: when the response is not OK, or
carries an `error`, or carries `isMedical === false`, the file is dropped and
the accumulated graph is returned unchanged; otherwise the payload is merged
(under the surrounding `try`/`catch`). -/
def processResponse {α : Type} (acc : Option (RawGraphData α))
    (resp : ExtractResponse α) : Option (RawGraphData α) :=
  if !(decide (200 ≤ resp.status) && decide (resp.status < 300)) ||
      truthyOptStr resp.error || (resp.isMedical == some false) then
    acc
  else
    mergeOrKeep acc ⟨resp.nodes, resp.edges⟩

/-- C9. A non-medical verdict makes the serve handler answer with the HTTP
400 rejection carrying `isMedical: false` and an error message instead of any
fragment, and the client then leaves the accumulated graph exactly unchanged:
the accumulator never sees a fragment for that file. -/
theorem c9_nonmedical_rejection_leaves_graph_unchanged {α : Type}
    (content : String) (acc : Option (RawGraphData α))
    (h : isMedicalVerdict content = false) :
    classificationGate α content = some (nonMedicalResponse α) ∧
      (nonMedicalResponse α).status = 400 ∧
      (nonMedicalResponse α).isMedical = some false ∧
      (nonMedicalResponse α).nodes = none ∧
      processResponse acc (nonMedicalResponse α) = acc := by
  refine ⟨?_, rfl, rfl, rfl, ?_⟩
  · unfold classificationGate
    rw [h]
    simp
  · unfold processResponse
    simp [nonMedicalResponse]

/-- Witness for C9: a concrete classifier reply that is classified
non-medical, and a concrete accumulated graph left unchanged. -/
theorem c9_witness :
    isMedicalVerdict " This looks like NON-MEDICAL content. " = false ∧
      processResponse
          (some (⟨some [⟨"a", "A", "condition", (), (), []⟩], some []⟩ :
            RawGraphData Unit))
          (nonMedicalResponse Unit) =
        some ⟨some [⟨"a", "A", "condition", (), (), []⟩], some []⟩ :=
  ⟨by decide,
    (c9_nonmedical_rejection_leaves_graph_unchanged
      " This looks like NON-MEDICAL content. " _ (by decide)).2.2.2.2⟩

/-- First-seen-wins deduplication by code: the transparent specification of
the `seen`-set loop in `extractICD10Codes`. -/
def firstWins : List (String × String) → List String → List (String × String)
  | [], _ => []
  | (c, d) :: rest, seen =>
    if seen.contains c then firstWins rest seen
    else (c, d) :: firstWins rest (seen ++ [c])

/-- Shallow embedding of `extractICD10Codes` from `Index.tsx` (lines 146-166).
The JavaScript regular-expression engine is host functionality; it is modelled
as an opaque enumerator `matchesOf` yielding the (code group, description
group) capture pairs in match order.  The falsy-input guard and the
`seen`-set first-wins loop (trim both captures, push only codes not yet seen)
are embedded from the source. -/
def extractICD10Codes (matchesOf : String → List (String × String))
    (analysisText : String) : List (String × String) :=
  if analysisText = "" then []
  else
    ((matchesOf analysisText).foldl
      (fun st m =>
        let code := strTrim m.1
        let description := strTrim m.2
        if st.2.contains code then st
        else (st.1 ++ [(code, description)], st.2 ++ [code]))
      ([], [])).1

/-- The accumulator loop of `extractICD10Codes` computes `firstWins` of the
trimmed captures. -/
theorem icd_fold_spec (ms : List (String × String)) :
    ∀ (res : List (String × String)) (seen : List String),
      (ms.foldl
        (fun st m =>
          let code := strTrim m.1
          let description := strTrim m.2
          if st.2.contains code then st
          else (st.1 ++ [(code, description)], st.2 ++ [code]))
        (res, seen)).1 =
          res ++ firstWins (ms.map (fun m => (strTrim m.1, strTrim m.2))) seen ∧
      (ms.foldl
        (fun st m =>
          let code := strTrim m.1
          let description := strTrim m.2
          if st.2.contains code then st
          else (st.1 ++ [(code, description)], st.2 ++ [code]))
        (res, seen)).2 =
          seen ++ (firstWins (ms.map (fun m => (strTrim m.1, strTrim m.2)))
            seen).map Prod.fst := by
  induction ms with
  | nil => intro res seen; simp [firstWins]
  | cons m rest ih =>
    intro res seen
    simp only [List.foldl_cons, List.map_cons]
    by_cases h : strTrim m.1 ∈ seen
    · simpa [firstWins, h] using ih res seen
    · have := ih (res ++ [(strTrim m.1, strTrim m.2)]) (seen ++ [strTrim m.1])
      simpa [firstWins, h, List.append_assoc] using this

/-- The codes produced by `firstWins` are distinct and avoid the seen set. -/
theorem firstWins_nodup (l : List (String × String)) :
    ∀ seen : List String,
      ((firstWins l seen).map Prod.fst).Nodup ∧
      ∀ c ∈ (firstWins l seen).map Prod.fst, c ∉ seen := by
  induction l with
  | nil => intro seen; simp [firstWins]
  | cons p rest ih =>
    intro seen
    obtain ⟨c, d⟩ := p
    by_cases h : c ∈ seen
    · simpa [firstWins, h] using ih seen
    · have htail := ih (seen ++ [c])
      have hc : c ∉ seen := h
      simp only [firstWins, List.contains_eq_any_beq]
      rw [if_neg (by simpa using h)]
      simp only [List.map_cons]
      constructor
      · refine List.nodup_cons.mpr ⟨?_, htail.1⟩
        intro hmem
        have := htail.2 c hmem
        simp at this
      · intro a ha
        rcases List.mem_cons.mp ha with rfl | ha
        · exact hc
        · have := htail.2 a ha
          intro hin
          exact this (by simp [hin])

/-- C10. `extractICD10Codes` never returns two entries with the same code:
the result is the first-seen-wins deduplication (by trimmed code, keeping the
first match's description) of the regular-expression captures, and an empty
(falsy) input yields the empty list. -/
theorem c10_icd_codes_deduplicated
    (matchesOf : String → List (String × String)) (analysisText : String) :
    ((extractICD10Codes matchesOf analysisText).map Prod.fst).Nodup ∧
      (analysisText = "" → extractICD10Codes matchesOf analysisText = []) ∧
      (analysisText ≠ "" → extractICD10Codes matchesOf analysisText =
        firstWins ((matchesOf analysisText).map
          (fun m => (strTrim m.1, strTrim m.2))) []) := by
  by_cases h : analysisText = ""
  · refine ⟨?_, fun _ => ?_, fun hne => absurd h hne⟩ <;>
      simp [extractICD10Codes, h]
  · have hfold := (icd_fold_spec (matchesOf analysisText) [] []).1
    have heq : extractICD10Codes matchesOf analysisText =
        firstWins ((matchesOf analysisText).map
          (fun m => (strTrim m.1, strTrim m.2))) [] := by
      unfold extractICD10Codes
      rw [if_neg h]
      simpa using hfold
    refine ⟨?_, fun hc => absurd hc h, fun _ => heq⟩
    rw [heq]
    exact (firstWins_nodup _ []).1

/-- Witness for C10: a concrete match enumerator with a duplicated code; the
empty input yields `[]`, the duplicate is dropped and the first description
kept. -/
theorem c10_witness :
    extractICD10Codes
        (fun _ => [("E11", "Type 2 diabetes"), ("E11", "duplicate"),
          ("I10", "Hypertension")]) "" = [] ∧
      extractICD10Codes
          (fun _ => [("E11", "Type 2 diabetes"), ("E11", "duplicate"),
            ("I10", "Hypertension")]) "report" =
        firstWins [("E11", "Type 2 diabetes"), ("E11", "duplicate"),
          ("I10", "Hypertension")] [] ∧
      ((extractICD10Codes
          (fun _ => [("E11", "Type 2 diabetes"), ("E11", "duplicate"),
            ("I10", "Hypertension")]) "report").map Prod.fst).Nodup := by
  refine ⟨(c10_icd_codes_deduplicated _ "").2.1 rfl, ?_,
    (c10_icd_codes_deduplicated _ "report").1⟩
  have h := (c10_icd_codes_deduplicated
    (fun _ => [("E11", "Type 2 diabetes"), ("E11", "duplicate"),
      ("I10", "Hypertension")]) "report").2.2 (by decide)
  rw [h]
  decide

/-- The `reduce` step selecting the more-connected of two nodes (strict
comparison, so the earlier node wins ties). -/
def pickMoreConnected (prev cur : GraphNode ℝ) : GraphNode ℝ :=
  if cur.connections.length > prev.connections.length then cur else prev

/-- Central-node selection of `applyCircularLayout`: the most-connected
condition node, or the most-connected node overall when no condition exists. -/
def centralNodeOf (n₀ : GraphNode ℝ) (rest : List (GraphNode ℝ)) :
    GraphNode ℝ :=
  match (n₀ :: rest).filter (fun n => n.type == "condition") with
  | [] => rest.foldl pickMoreConnected n₀
  | c :: cs => cs.foldl pickMoreConnected c

/-- The peripheral nodes: every node whose id differs from the central
node's id. -/
def peripheralOf (n₀ : GraphNode ℝ) (rest : List (GraphNode ℝ)) :
    List (GraphNode ℝ) :=
  (n₀ :: rest).filter (fun n => !(n.id == (centralNodeOf n₀ rest).id))

/-- In-place position update through `layoutNodes.find(...)`: the first node
with the given id receives the new coordinates. -/
def setPos : List (GraphNode ℝ) → String → ℝ → ℝ → List (GraphNode ℝ)
  | [], _, _, _ => []
  | n :: ns, i, px, py =>
    if n.id == i then { n with x := px, y := py } :: ns
    else n :: setPos ns i px py

/-- The keys of `nodesByType` in JavaScript object insertion order
(first encounter of each `type`). -/
def typeKeysOf (l : List (GraphNode ℝ)) : List String :=
  l.foldl (fun acc n => if acc.contains n.type then acc else acc ++ [n.type]) []

/-- The peripheral nodes re-enumerated group-by-group
(`Object.values(nodesByType)` flattened). -/
def groupedByType (l : List (GraphNode ℝ)) : List (GraphNode ℝ) :=
  ((typeKeysOf l).map (fun t => l.filter (fun n => n.type == t))).flatten

/-- `(currentIndex / total) * 2 * Math.PI - Math.PI / 2`. -/
noncomputable def circleAngle (i total : ℕ) : ℝ :=
  (i : ℝ) / (total : ℝ) * (2 * Real.pi) - Real.pi / 2

/-- `Math.max(180, 120 + peripheralNodes.length * 10)`. -/
noncomputable def layoutRadius (peripheral : List (GraphNode ℝ)) : ℝ :=
  max 180 (120 + (peripheral.length : ℝ) * 10)

/-- The assignment loop: walk the grouped peripheral nodes with a running
`currentIndex`, updating each node's coordinates in the accumulator via
`setPos`. -/
def assignFoldIdx (X Y : ℕ → ℝ) :
    ℕ → List (GraphNode ℝ) → List (GraphNode ℝ) → List (GraphNode ℝ)
  | _, [], acc => acc
  | i, nd :: rest, acc =>
    assignFoldIdx X Y (i + 1) rest (setPos acc nd.id (X i) (Y i))

/-- Shallow embedding of `applyCircularLayout` from `knowledge-graph.tsx`
(lines 51-111): pick one central node (the most-connected condition node, or
the most-connected node if no condition exists), place it at the center, and
distribute all remaining nodes, grouped by type, evenly on a circle whose
radius grows with their number, starting at the top (offset `-π/2`). -/
noncomputable def applyCircularLayout (cx cy : ℝ) :
    List (GraphNode ℝ) → List (GraphNode ℝ)
  | [] => []
  | n₀ :: rest =>
    let centralNode := centralNodeOf n₀ rest
    let peripheralNodes := peripheralOf n₀ rest
    let layoutNodes := (n₀ :: rest).map (fun node =>
      if node.id == centralNode.id then { node with x := cx, y := cy }
      else node)
    assignFoldIdx
      (fun i => cx + layoutRadius peripheralNodes *
        Real.cos (circleAngle i peripheralNodes.length))
      (fun i => cy + layoutRadius peripheralNodes *
        Real.sin (circleAngle i peripheralNodes.length))
      0 (groupedByType peripheralNodes) layoutNodes

/-- The coordinates assigned to the first node carrying the given id. -/
def posOf (l : List (GraphNode ℝ)) (i : String) : Option (ℝ × ℝ) :=
  (l.find? (fun n => n.id == i)).map (fun n => (n.x, n.y))

/-- Squared Euclidean distance between two points. -/
def sqDist (p q : ℝ × ℝ) : ℝ := (p.1 - q.1) ^ 2 + (p.2 - q.2) ^ 2

/-- `setPos` leaves the id sequence unchanged. -/
theorem map_id_setPos (l : List (GraphNode ℝ)) (i : String) (px py : ℝ) :
    (setPos l i px py).map GraphNode.id = l.map GraphNode.id := by
  induction l with
  | nil => rfl
  | cons n ns ih =>
    by_cases h : n.id = i
    · simp [setPos, h]
    · simp [setPos, h, ih]

/-- Looking up an id after `setPos`: the targeted id is found with the new
coordinates, every other id is unaffected. -/
theorem find?_setPos (l : List (GraphNode ℝ)) (i j : String) (px py : ℝ) :
    (setPos l i px py).find? (fun n => n.id == j) =
      if j = i then
        (l.find? (fun n => n.id == i)).map
          (fun n => { n with x := px, y := py })
      else l.find? (fun n => n.id == j) := by
  induction l with
  | nil => by_cases h : j = i <;> simp [setPos, h]
  | cons n ns ih =>
    by_cases hni : n.id = i
    · by_cases hji : j = i
      · subst hji
        simp [setPos, hni, List.find?_cons]
      · have hnj : ¬ n.id = j := fun hc => hji ((hc ▸ hni).symm ▸ rfl)
        have hij : ¬ i = j := fun hc => hji hc.symm
        simp [setPos, hni, hnj, List.find?_cons, hji, hij]
    · by_cases hji : j = i
      · subst hji
        simp [setPos, hni, List.find?_cons, ih]
      · by_cases hnj : n.id = j
        · simp [setPos, hni, hnj, List.find?_cons, hji]
        · simp [setPos, hni, hnj, List.find?_cons, hji, ih]

/-- The assignment loop leaves the id sequence unchanged. -/
theorem map_id_assignFoldIdx (X Y : ℕ → ℝ) (A : List (GraphNode ℝ)) :
    ∀ (k : ℕ) (acc : List (GraphNode ℝ)),
      (assignFoldIdx X Y k A acc).map GraphNode.id = acc.map GraphNode.id := by
  induction A with
  | nil => intro k acc; rfl
  | cons nd rest ih =>
    intro k acc
    rw [assignFoldIdx, ih, map_id_setPos]

/-- The assignment loop does not move nodes whose id never occurs in the
processed list. -/
theorem find?_assignFoldIdx_untouched (X Y : ℕ → ℝ) (A : List (GraphNode ℝ)) :
    ∀ (k : ℕ) (acc : List (GraphNode ℝ)) (j : String),
      (∀ nd ∈ A, nd.id ≠ j) →
      (assignFoldIdx X Y k A acc).find? (fun n => n.id == j) =
        acc.find? (fun n => n.id == j) := by
  induction A with
  | nil => intro k acc j _; rfl
  | cons nd rest ih =>
    intro k acc j hj
    rw [assignFoldIdx, ih _ _ _ (fun m hm => hj m (List.mem_cons_of_mem _ hm)),
      find?_setPos, if_neg]
    exact fun hc => hj nd (List.mem_cons_self _ _) (hc ▸ rfl)

/-- The assignment loop gives the node whose id occurs exactly once, at
position `A₁.length` of the processed list, the coordinates computed at index
`k + A₁.length`. -/
theorem find?_assignFoldIdx_hit (X Y : ℕ → ℝ) (A₁ : List (GraphNode ℝ)) :
    ∀ (nd : GraphNode ℝ) (A₂ : List (GraphNode ℝ)) (k : ℕ)
      (acc : List (GraphNode ℝ)) (j : String),
      nd.id = j → (∀ m ∈ A₁, m.id ≠ j) → (∀ m ∈ A₂, m.id ≠ j) →
      (assignFoldIdx X Y k (A₁ ++ nd :: A₂) acc).find? (fun n => n.id == j) =
        (acc.find? (fun n => n.id == j)).map
          (fun n => { n with x := X (k + A₁.length), y := Y (k + A₁.length) }) := by
  induction A₁ with
  | nil =>
    intro nd A₂ k acc j hnd h1 h2
    rw [List.nil_append, assignFoldIdx,
      find?_assignFoldIdx_untouched _ _ _ _ _ _ h2, find?_setPos, hnd,
      if_pos rfl]
    simp
  | cons m A₁ ih =>
    intro nd A₂ k acc j hnd h1 h2
    have hm : m.id ≠ j := h1 m (List.mem_cons_self _ _)
    rw [List.cons_append, assignFoldIdx,
      ih nd A₂ (k + 1) _ j hnd (fun a ha => h1 a (List.mem_cons_of_mem _ ha)) h2,
      find?_setPos, if_neg (fun hc => hm hc.symm)]
    have : k + 1 + A₁.length = k + (m :: A₁).length := by
      simp [List.length_cons]; omega
    rw [this]

/-- Elements already collected survive the type-key fold. -/
theorem typeKeys_foldl_mono (l : List (GraphNode ℝ)) :
    ∀ (acc : List String) (t : String), t ∈ acc →
      t ∈ l.foldl
        (fun acc n => if acc.contains n.type then acc else acc ++ [n.type])
        acc := by
  induction l with
  | nil => intro acc t ht; exact ht
  | cons n rest ih =>
    intro acc t ht
    rw [List.foldl_cons]
    by_cases h : acc.contains n.type
    · rw [if_pos h]; exact ih acc t ht
    · rw [if_neg h]; exact ih _ t (List.mem_append_left _ ht)

/-- Every node's type appears among the collected type keys. -/
theorem type_mem_typeKeys_foldl (l : List (GraphNode ℝ)) :
    ∀ (acc : List String) (n : GraphNode ℝ), n ∈ l →
      n.type ∈ l.foldl
        (fun acc n => if acc.contains n.type then acc else acc ++ [n.type])
        acc := by
  induction l with
  | nil => intro acc n hn; cases hn
  | cons m rest ih =>
    intro acc n hn
    rw [List.foldl_cons]
    rcases List.mem_cons.mp hn with rfl | hn
    · by_cases h : acc.contains n.type
      · rw [if_pos h]
        exact typeKeys_foldl_mono rest acc n.type (by simpa using h)
      · rw [if_neg h]
        exact typeKeys_foldl_mono rest _ n.type (by simp)
    · by_cases h : acc.contains m.type <;> simp only [h, if_pos, if_neg] <;>
        first
          | exact ih acc n hn
          | exact ih _ n hn

/-- The type-key fold preserves distinctness of the accumulator. -/
theorem typeKeys_foldl_nodup (l : List (GraphNode ℝ)) :
    ∀ acc : List String, acc.Nodup →
      (l.foldl
        (fun acc n => if acc.contains n.type then acc else acc ++ [n.type])
        acc).Nodup := by
  induction l with
  | nil => intro acc h; exact h
  | cons n rest ih =>
    intro acc h
    rw [List.foldl_cons]
    by_cases hc : acc.contains n.type
    · rw [if_pos hc]; exact ih acc h
    · rw [if_neg hc]
      refine ih _ ?_
      rw [List.nodup_append]
      exact ⟨h, List.nodup_singleton _, by simpa using hc⟩

/-- The collected type keys are distinct. -/
theorem typeKeysOf_nodup (l : List (GraphNode ℝ)) : (typeKeysOf l).Nodup :=
  typeKeys_foldl_nodup l [] List.nodup_nil

/-- Every node's type occurs among the type keys. -/
theorem mem_typeKeysOf (l : List (GraphNode ℝ)) (n : GraphNode ℝ)
    (hn : n ∈ l) : n.type ∈ typeKeysOf l :=
  type_mem_typeKeys_foldl l [] n hn

/-- Every node occurs in its type group, hence in the grouped enumeration. -/
theorem mem_groupedByType (l : List (GraphNode ℝ)) (n : GraphNode ℝ)
    (hn : n ∈ l) : n ∈ groupedByType l := by
  unfold groupedByType
  rw [List.mem_flatten]
  refine ⟨l.filter (fun m => m.type == n.type), ?_, ?_⟩
  · exact List.mem_map_of_mem _ (mem_typeKeysOf l n hn)
  · rw [List.mem_filter]
    exact ⟨hn, by simp⟩

/-- Flattening per-key filters of a covered list is a permutation of the
list. -/
theorem flatten_filter_perm (keys : List String) :
    ∀ l : List (GraphNode ℝ), keys.Nodup → (∀ n ∈ l, n.type ∈ keys) →
      List.Perm
        ((keys.map (fun t => l.filter (fun n => n.type == t))).flatten) l := by
  induction keys with
  | nil =>
    intro l _ hcov
    cases l with
    | nil => simp
    | cons n rest => cases hcov n (List.mem_cons_self _ _)
  | cons t ks ih =>
    intro l hk hcov
    rw [List.map_cons, List.flatten_cons]
    have hks : ks.Nodup := (List.nodup_cons.mp hk).2
    have htk : t ∉ ks := (List.nodup_cons.mp hk).1
    have hstep : (ks.map (fun u => l.filter (fun n => n.type == u))) =
        ks.map (fun u => (l.filter (fun n => !(n.type == t))).filter
          (fun n => n.type == u)) := by
      refine List.map_congr_left ?_
      intro u hu
      have hut : ¬ u = t := fun hc => htk (hc ▸ hu)
      rw [List.filter_filter]
      refine (List.filter_congr ?_).symm
      intro n _
      by_cases hnu : n.type = u
      · have hnt : ¬ n.type = t := fun hc => hut (hnu.symm.trans hc)
        simp [hnu, hnt, hut]
      · simp [hnu]
    rw [hstep]
    have hcov' : ∀ n ∈ l.filter (fun n => !(n.type == t)), n.type ∈ ks := by
      intro n hn
      rw [List.mem_filter] at hn
      rcases List.mem_cons.mp (hcov n hn.1) with hc | hc
      · exact absurd hc (by simpa using hn.2)
      · exact hc
    exact List.Perm.trans
      (List.Perm.append_left _ (ih _ hks hcov'))
      (List.filter_append_perm _ l)

/-- The grouped enumeration is a permutation of the peripheral list. -/
theorem groupedByType_perm (l : List (GraphNode ℝ)) :
    List.Perm (groupedByType l) l :=
  flatten_filter_perm (typeKeysOf l) l (typeKeysOf_nodup l)
    (fun n hn => mem_typeKeysOf l n hn)

/-- The `reduce` over `pickMoreConnected` returns one of its inputs. -/
theorem foldl_pick_mem (l : List (GraphNode ℝ)) :
    ∀ a : GraphNode ℝ, l.foldl pickMoreConnected a ∈ a :: l := by
  induction l with
  | nil => intro a; simp
  | cons b rest ih =>
    intro a
    rw [List.foldl_cons]
    have hp : pickMoreConnected a b = a ∨ pickMoreConnected a b = b := by
      unfold pickMoreConnected
      by_cases h : b.connections.length > a.connections.length
      · rw [if_pos h]; exact Or.inr rfl
      · rw [if_neg h]; exact Or.inl rfl
    rcases hp with hq | hq <;> rw [hq]
    · rcases List.mem_cons.mp (ih a) with hc | hc
      · simp [hc]
      · simp [List.mem_cons_of_mem, hc]
    · rcases List.mem_cons.mp (ih b) with hc | hc
      · simp [hc]
      · simp [List.mem_cons_of_mem, hc]

/-- The selected central node is one of the input nodes. -/
theorem centralNodeOf_mem (n₀ : GraphNode ℝ) (rest : List (GraphNode ℝ)) :
    centralNodeOf n₀ rest ∈ n₀ :: rest := by
  unfold centralNodeOf
  split
  · exact foldl_pick_mem rest n₀
  · next c cs heq =>
    have hsub : ∀ x ∈ c :: cs, x ∈ n₀ :: rest := by
      intro x hx
      rw [← heq] at hx
      exact List.mem_of_mem_filter hx
    exact hsub _ (foldl_pick_mem cs c)

/-- Under distinct ids, searching for a member node's id finds that node. -/
theorem find?_id_of_nodup (l : List (GraphNode ℝ))
    (h : (l.map GraphNode.id).Nodup) (n : GraphNode ℝ) (hn : n ∈ l) :
    l.find? (fun m => m.id == n.id) = some n := by
  induction l with
  | nil => cases hn
  | cons a as ih =>
    rw [List.map_cons, List.nodup_cons] at h
    rcases List.mem_cons.mp hn with rfl | hmem
    · simp [List.find?_cons]
    · have hne : ¬ a.id = n.id := by
        intro hc
        exact h.1 (hc ▸ List.mem_map_of_mem GraphNode.id hmem)
      have hb : (a.id == n.id) = false := by simpa using hne
      simp only [List.find?_cons, hb]
      exact ih h.2 hmem

/-- Grouped peripheral nodes never carry the central node's id. -/
theorem grouped_id_ne_central (n₀ : GraphNode ℝ) (rest : List (GraphNode ℝ)) :
    ∀ nd ∈ groupedByType (peripheralOf n₀ rest),
      nd.id ≠ (centralNodeOf n₀ rest).id := by
  intro nd hnd
  have hmem : nd ∈ peripheralOf n₀ rest :=
    (groupedByType_perm (peripheralOf n₀ rest)).mem_iff.mp hnd
  unfold peripheralOf at hmem
  rw [List.mem_filter] at hmem
  simpa using hmem.2

/-- The central node of the layout ends up exactly at the center. -/
theorem layout_pos_central (cx cy : ℝ) (n₀ : GraphNode ℝ)
    (rest : List (GraphNode ℝ)) :
    posOf (applyCircularLayout cx cy (n₀ :: rest))
      (centralNodeOf n₀ rest).id = some (cx, cy) := by
  have hstep : applyCircularLayout cx cy (n₀ :: rest) =
      assignFoldIdx
        (fun i => cx + layoutRadius (peripheralOf n₀ rest) *
          Real.cos (circleAngle i (peripheralOf n₀ rest).length))
        (fun i => cy + layoutRadius (peripheralOf n₀ rest) *
          Real.sin (circleAngle i (peripheralOf n₀ rest).length))
        0 (groupedByType (peripheralOf n₀ rest))
        ((n₀ :: rest).map (fun node =>
          if node.id == (centralNodeOf n₀ rest).id then
            { node with x := cx, y := cy }
          else node)) := rfl
  rw [hstep]
  unfold posOf
  rw [find?_assignFoldIdx_untouched _ _ _ _ _ _
    (grouped_id_ne_central n₀ rest), List.find?_map]
  have hpred : ((fun n : GraphNode ℝ => n.id == (centralNodeOf n₀ rest).id) ∘
      (fun node : GraphNode ℝ =>
        if node.id == (centralNodeOf n₀ rest).id then
          { node with x := cx, y := cy }
        else node)) =
      (fun n : GraphNode ℝ => n.id == (centralNodeOf n₀ rest).id) := by
    funext n
    by_cases hc : (n.id == (centralNodeOf n₀ rest).id) = true
    · simp [Function.comp, hc]
    · simp [Function.comp, hc]
  rw [hpred]
  obtain ⟨m, hm⟩ : ∃ m, (n₀ :: rest).find?
      (fun n => n.id == (centralNodeOf n₀ rest).id) = some m := by
    cases hfind : (n₀ :: rest).find?
        (fun n => n.id == (centralNodeOf n₀ rest).id) with
    | none =>
      exfalso
      have := List.find?_eq_none.mp hfind _ (centralNodeOf_mem n₀ rest)
      simp at this
    | some m => exact ⟨m, rfl⟩
  have hmid := List.find?_some hm
  simp only at hmid
  have hmeq : m.id = (centralNodeOf n₀ rest).id := by simpa using hmid
  rw [hm]
  simp [hmeq]

/-- Peripheral ids are distinct whenever the input ids are. -/
theorem peripheral_ids_nodup (n₀ : GraphNode ℝ) (rest : List (GraphNode ℝ))
    (hnd : ((n₀ :: rest).map GraphNode.id).Nodup) :
    ((peripheralOf n₀ rest).map GraphNode.id).Nodup :=
  List.Nodup.sublist (List.Sublist.map _ (List.filter_sublist _)) hnd

/-- The i-th node of the grouped peripheral enumeration lands on the circle
at angle `circleAngle i total`. -/
theorem layout_pos_grouped (cx cy : ℝ) (n₀ : GraphNode ℝ)
    (rest : List (GraphNode ℝ))
    (hnd : ((n₀ :: rest).map GraphNode.id).Nodup)
    (i : ℕ) (h : i < (groupedByType (peripheralOf n₀ rest)).length) :
    posOf (applyCircularLayout cx cy (n₀ :: rest))
        ((groupedByType (peripheralOf n₀ rest)).get ⟨i, h⟩).id =
      some (cx + layoutRadius (peripheralOf n₀ rest) *
          Real.cos (circleAngle i (peripheralOf n₀ rest).length),
        cy + layoutRadius (peripheralOf n₀ rest) *
          Real.sin (circleAngle i (peripheralOf n₀ rest).length)) := by
  have hGid : ((groupedByType (peripheralOf n₀ rest)).map GraphNode.id).Nodup :=
    (((groupedByType_perm (peripheralOf n₀ rest)).map GraphNode.id).nodup_iff).mpr
      (peripheral_ids_nodup n₀ rest hnd)
  have hdec : (groupedByType (peripheralOf n₀ rest)).take i ++
      (groupedByType (peripheralOf n₀ rest)).get ⟨i, h⟩ ::
        (groupedByType (peripheralOf n₀ rest)).drop (i + 1) =
      groupedByType (peripheralOf n₀ rest) := by
    rw [List.get_cons_drop, List.take_append_drop]
  have hsplit := hGid
  rw [← hdec, List.map_append, List.map_cons, List.nodup_append] at hsplit
  have hdropne : ∀ m ∈ (groupedByType (peripheralOf n₀ rest)).drop (i + 1),
      m.id ≠ ((groupedByType (peripheralOf n₀ rest)).get ⟨i, h⟩).id := by
    intro m hm hc
    have h1 := (List.nodup_cons.mp hsplit.2.1).1
    exact h1 (hc ▸ List.mem_map_of_mem GraphNode.id hm)
  have htakene : ∀ m ∈ (groupedByType (peripheralOf n₀ rest)).take i,
      m.id ≠ ((groupedByType (peripheralOf n₀ rest)).get ⟨i, h⟩).id := by
    intro m hm hc
    exact hsplit.2.2 (List.mem_map_of_mem GraphNode.id hm)
      (hc ▸ List.mem_cons_self _ _)
  have hgetmem : (groupedByType (peripheralOf n₀ rest)).get ⟨i, h⟩ ∈
      groupedByType (peripheralOf n₀ rest) := List.get_mem _ _ h
  have hndP : (groupedByType (peripheralOf n₀ rest)).get ⟨i, h⟩ ∈
      peripheralOf n₀ rest :=
    (groupedByType_perm (peripheralOf n₀ rest)).mem_iff.mp hgetmem
  have hndmem : (groupedByType (peripheralOf n₀ rest)).get ⟨i, h⟩ ∈
      n₀ :: rest := List.mem_of_mem_filter hndP
  have hndc : ((groupedByType (peripheralOf n₀ rest)).get ⟨i, h⟩).id ≠
      (centralNodeOf n₀ rest).id :=
    grouped_id_ne_central n₀ rest _ hgetmem
  have hstep : applyCircularLayout cx cy (n₀ :: rest) =
      assignFoldIdx
        (fun k => cx + layoutRadius (peripheralOf n₀ rest) *
          Real.cos (circleAngle k (peripheralOf n₀ rest).length))
        (fun k => cy + layoutRadius (peripheralOf n₀ rest) *
          Real.sin (circleAngle k (peripheralOf n₀ rest).length))
        0 (groupedByType (peripheralOf n₀ rest))
        ((n₀ :: rest).map (fun node =>
          if node.id == (centralNodeOf n₀ rest).id then
            { node with x := cx, y := cy }
          else node)) := rfl
  have happly := find?_assignFoldIdx_hit
    (fun k => cx + layoutRadius (peripheralOf n₀ rest) *
      Real.cos (circleAngle k (peripheralOf n₀ rest).length))
    (fun k => cy + layoutRadius (peripheralOf n₀ rest) *
      Real.sin (circleAngle k (peripheralOf n₀ rest).length))
    ((groupedByType (peripheralOf n₀ rest)).take i)
    ((groupedByType (peripheralOf n₀ rest)).get ⟨i, h⟩)
    ((groupedByType (peripheralOf n₀ rest)).drop (i + 1))
    0
    ((n₀ :: rest).map (fun node =>
      if node.id == (centralNodeOf n₀ rest).id then
        { node with x := cx, y := cy }
      else node))
    ((groupedByType (peripheralOf n₀ rest)).get ⟨i, h⟩).id
    rfl htakene hdropne
  rw [hdec] at happly
  have hlen : (0 : ℕ) + ((groupedByType (peripheralOf n₀ rest)).take i).length
      = i := by
    rw [List.length_take]
    omega
  rw [hlen] at happly
  rw [hstep]
  unfold posOf
  rw [happly, List.find?_map]
  have hpred : ((fun n : GraphNode ℝ =>
      n.id == ((groupedByType (peripheralOf n₀ rest)).get ⟨i, h⟩).id) ∘
      (fun node : GraphNode ℝ =>
        if node.id == (centralNodeOf n₀ rest).id then
          { node with x := cx, y := cy }
        else node)) =
      (fun n : GraphNode ℝ =>
        n.id == ((groupedByType (peripheralOf n₀ rest)).get ⟨i, h⟩).id) := by
    funext n
    by_cases hc : (n.id == (centralNodeOf n₀ rest).id) = true
    · simp [Function.comp, hc]
    · simp [Function.comp, hc]
  rw [hpred, find?_id_of_nodup _ hnd _ hndmem]
  have hnotc : ¬ (((groupedByType (peripheralOf n₀ rest)).get ⟨i, h⟩).id =
      (centralNodeOf n₀ rest).id) := hndc
  simp [hnotc]

/-- C6 counterexample. A graph consisting of one non-condition node places
that node exactly at the center (400,300) — the layout falls back to
centering the most-connected node when no condition exists — and not on the
circle directly above the center (which would be (400,120) at radius 180). -/
theorem c6_counterexample :
    posOf (applyCircularLayout 400 300
        [⟨"a", "A", "symptom", 0, 0, []⟩]) "a" = some (400, 300) ∧
      ((400 : ℝ), (300 : ℝ)) ≠ ((400 : ℝ), (120 : ℝ)) := by
  constructor
  · exact layout_pos_central 400 300 ⟨"a", "A", "symptom", 0, 0, []⟩ []
  · intro hc
    have := congrArg Prod.snd hc
    norm_num at this

/-- C6 amended. A singleton graph is placed at the exact center regardless of
the node's type: with no condition node present the layout centers the
most-connected node, which for a single node is the node itself; it is never
put on the surrounding circle. -/
theorem c6_amended_single_node_centered (n : GraphNode ℝ) (cx cy : ℝ)
    (h : n.type ≠ "condition") :
    applyCircularLayout cx cy [n] = [{ n with x := cx, y := cy }] := by
  have hb : (n.type == "condition") = false := by simpa using h
  simp [applyCircularLayout, centralNodeOf, peripheralOf, groupedByType,
    typeKeysOf, assignFoldIdx, hb]

/-- Witness for the amended C6 at a concrete singleton graph. -/
theorem c6_amended_witness :
    applyCircularLayout 400 300 [⟨"s1", "Fever", "symptom", 0, 0, []⟩] =
      [⟨"s1", "Fever", "symptom", 400, 300, []⟩] :=
  c6_amended_single_node_centered ⟨"s1", "Fever", "symptom", 0, 0, []⟩ 400 300
    (by decide)

/-- C7 counterexample. Two runs that agree on node ids, labels, types and
order but differ in one node's `connections` place node "a" differently: the
central slot goes to the most-connected condition node, so layout is not a
function of (node set, type, insertion order) alone. -/
theorem c7_counterexample :
    posOf (applyCircularLayout 400 300
        [⟨"a", "A", "condition", 0, 0, []⟩,
          ⟨"b", "B", "condition", 0, 0, []⟩]) "a" ≠
      posOf (applyCircularLayout 400 300
        [⟨"a", "A", "condition", 0, 0, []⟩,
          ⟨"b", "B", "condition", 0, 0, ["x"]⟩]) "a" := by
  have h1 : posOf (applyCircularLayout 400 300
      [⟨"a", "A", "condition", 0, 0, []⟩,
        ⟨"b", "B", "condition", 0, 0, []⟩]) "a" = some (400, 300) :=
    layout_pos_central 400 300 ⟨"a", "A", "condition", 0, 0, []⟩
      [⟨"b", "B", "condition", 0, 0, []⟩]
  have h0 : 0 < (groupedByType (peripheralOf
      (⟨"a", "A", "condition", 0, 0, []⟩ : GraphNode ℝ)
      [⟨"b", "B", "condition", 0, 0, ["x"]⟩])).length := by decide
  have h2 : posOf (applyCircularLayout 400 300
      [⟨"a", "A", "condition", 0, 0, []⟩,
        ⟨"b", "B", "condition", 0, 0, ["x"]⟩]) "a" =
      some (400 + layoutRadius (peripheralOf
          (⟨"a", "A", "condition", 0, 0, []⟩ : GraphNode ℝ)
          [⟨"b", "B", "condition", 0, 0, ["x"]⟩]) *
        Real.cos (circleAngle 0 (peripheralOf
          (⟨"a", "A", "condition", 0, 0, []⟩ : GraphNode ℝ)
          [⟨"b", "B", "condition", 0, 0, ["x"]⟩]).length),
        300 + layoutRadius (peripheralOf
          (⟨"a", "A", "condition", 0, 0, []⟩ : GraphNode ℝ)
          [⟨"b", "B", "condition", 0, 0, ["x"]⟩]) *
        Real.sin (circleAngle 0 (peripheralOf
          (⟨"a", "A", "condition", 0, 0, []⟩ : GraphNode ℝ)
          [⟨"b", "B", "condition", 0, 0, ["x"]⟩]).length)) :=
    layout_pos_grouped 400 300 ⟨"a", "A", "condition", 0, 0, []⟩
      [⟨"b", "B", "condition", 0, 0, ["x"]⟩] (by decide) 0 h0
  have hrad : layoutRadius (peripheralOf
      (⟨"a", "A", "condition", 0, 0, []⟩ : GraphNode ℝ)
      [⟨"b", "B", "condition", 0, 0, ["x"]⟩]) = 180 := by
    have hlen : (peripheralOf
        (⟨"a", "A", "condition", 0, 0, []⟩ : GraphNode ℝ)
        [⟨"b", "B", "condition", 0, 0, ["x"]⟩]).length = 1 := by decide
    rw [layoutRadius, hlen]
    norm_num
  have hang : circleAngle 0 (peripheralOf
      (⟨"a", "A", "condition", 0, 0, []⟩ : GraphNode ℝ)
      [⟨"b", "B", "condition", 0, 0, ["x"]⟩]).length = -(Real.pi / 2) := by
    rw [circleAngle]
    simp
  rw [h1, h2, hrad, hang]
  intro hc
  have := congrArg Prod.snd (Option.some_injective _ hc)
  simp only [Real.sin_neg, Real.sin_pi_div_two] at this
  norm_num at this

/-- The layout permutes no nodes and changes no ids. -/
theorem layout_map_id (cx cy : ℝ) (nodes : List (GraphNode ℝ)) :
    (applyCircularLayout cx cy nodes).map GraphNode.id =
      nodes.map GraphNode.id := by
  cases nodes with
  | nil => rfl
  | cons n₀ rest =>
    have hstep : applyCircularLayout cx cy (n₀ :: rest) =
        assignFoldIdx
          (fun k => cx + layoutRadius (peripheralOf n₀ rest) *
            Real.cos (circleAngle k (peripheralOf n₀ rest).length))
          (fun k => cy + layoutRadius (peripheralOf n₀ rest) *
            Real.sin (circleAngle k (peripheralOf n₀ rest).length))
          0 (groupedByType (peripheralOf n₀ rest))
          ((n₀ :: rest).map (fun node =>
            if node.id == (centralNodeOf n₀ rest).id then
              { node with x := cx, y := cy }
            else node)) := rfl
    rw [hstep, map_id_assignFoldIdx, List.map_map]
    refine List.map_congr_left ?_
    intro n _
    by_cases h : (n.id == (centralNodeOf n₀ rest).id) = true <;>
      simp [Function.comp, h]

/-- `pickMoreConnected` commutes with a connection-preserving map. -/
theorem pick_map (f : GraphNode ℝ → GraphNode ℝ)
    (hconn : ∀ n, (f n).connections = n.connections) (a b : GraphNode ℝ) :
    pickMoreConnected (f a) (f b) = f (pickMoreConnected a b) := by
  unfold pickMoreConnected
  rw [hconn a, hconn b]
  by_cases h : b.connections.length > a.connections.length
  · rw [if_pos h, if_pos h]
  · rw [if_neg h, if_neg h]

/-- The `reduce` over `pickMoreConnected` commutes with a
connection-preserving map. -/
theorem foldl_pick_map (f : GraphNode ℝ → GraphNode ℝ)
    (hconn : ∀ n, (f n).connections = n.connections)
    (l : List (GraphNode ℝ)) :
    ∀ a, (l.map f).foldl pickMoreConnected (f a) =
      f (l.foldl pickMoreConnected a) := by
  induction l with
  | nil => intro a; rfl
  | cons b rest ih =>
    intro a
    rw [List.map_cons, List.foldl_cons, List.foldl_cons,
      pick_map f hconn a b, ih]

/-- Filtering by type commutes with a type-preserving map. -/
theorem filter_type_map (f : GraphNode ℝ → GraphNode ℝ)
    (hty : ∀ n, (f n).type = n.type) (t : String) (l : List (GraphNode ℝ)) :
    (l.map f).filter (fun n => n.type == t) =
      (l.filter (fun n => n.type == t)).map f := by
  rw [List.filter_map]
  have : ((fun n : GraphNode ℝ => n.type == t) ∘ f) =
      (fun n : GraphNode ℝ => n.type == t) := by
    funext n
    simp [Function.comp, hty n]
  rw [this]

/-- Central-node selection commutes with an id/type/connection-preserving
map. -/
theorem centralNodeOf_map (f : GraphNode ℝ → GraphNode ℝ)
    (hty : ∀ n, (f n).type = n.type)
    (hconn : ∀ n, (f n).connections = n.connections)
    (n₀ : GraphNode ℝ) (rest : List (GraphNode ℝ)) :
    centralNodeOf (f n₀) (rest.map f) = f (centralNodeOf n₀ rest) := by
  unfold centralNodeOf
  have hfil : (f n₀ :: rest.map f).filter (fun n => n.type == "condition") =
      ((n₀ :: rest).filter (fun n => n.type == "condition")).map f := by
    rw [← List.map_cons]
    exact filter_type_map f hty _ _
  rw [hfil]
  cases hq : (n₀ :: rest).filter (fun n => n.type == "condition") with
  | nil => exact foldl_pick_map f hconn rest n₀
  | cons c cs =>
    rw [List.map_cons]
    exact foldl_pick_map f hconn cs c

/-- The peripheral list commutes with an id/type/connection-preserving map. -/
theorem peripheralOf_map (f : GraphNode ℝ → GraphNode ℝ)
    (hid : ∀ n, (f n).id = n.id) (hty : ∀ n, (f n).type = n.type)
    (hconn : ∀ n, (f n).connections = n.connections)
    (n₀ : GraphNode ℝ) (rest : List (GraphNode ℝ)) :
    peripheralOf (f n₀) (rest.map f) = (peripheralOf n₀ rest).map f := by
  unfold peripheralOf
  rw [← List.map_cons, centralNodeOf_map f hty hconn, List.filter_map]
  have : ((fun n : GraphNode ℝ =>
      !(n.id == (f (centralNodeOf n₀ rest)).id)) ∘ f) =
      (fun n : GraphNode ℝ => !(n.id == (centralNodeOf n₀ rest).id)) := by
    funext n
    simp [Function.comp, hid n, hid (centralNodeOf n₀ rest)]
  rw [this]

/-- The type keys are unchanged by a type-preserving map. -/
theorem typeKeysOf_map (f : GraphNode ℝ → GraphNode ℝ)
    (hty : ∀ n, (f n).type = n.type) (l : List (GraphNode ℝ)) :
    typeKeysOf (l.map f) = typeKeysOf l := by
  unfold typeKeysOf
  rw [List.foldl_map]
  have : (fun (acc : List String) (n : GraphNode ℝ) =>
      if acc.contains (f n).type then acc else acc ++ [(f n).type]) =
      (fun (acc : List String) (n : GraphNode ℝ) =>
        if acc.contains n.type then acc else acc ++ [n.type]) := by
    funext acc n
    rw [hty n]
  rw [this]

/-- The grouped enumeration commutes with a type-preserving map. -/
theorem groupedByType_map (f : GraphNode ℝ → GraphNode ℝ)
    (hty : ∀ n, (f n).type = n.type) (l : List (GraphNode ℝ)) :
    groupedByType (l.map f) = (groupedByType l).map f := by
  unfold groupedByType
  rw [typeKeysOf_map f hty]
  have : (typeKeysOf l).map (fun t => (l.map f).filter (fun n => n.type == t)) =
      ((typeKeysOf l).map (fun t => l.filter (fun n => n.type == t))).map
        (List.map f) := by
    rw [List.map_map]
    refine List.map_congr_left ?_
    intro t _
    exact filter_type_map f hty t l
  rw [this, List.map_flatten]

/-- Ids absent from the input receive no position. -/
theorem posOf_eq_none_of_not_mem (cx cy : ℝ) (nodes : List (GraphNode ℝ))
    (j : String) (h : ∀ m ∈ nodes, m.id ≠ j) :
    posOf (applyCircularLayout cx cy nodes) j = none := by
  unfold posOf
  have hfind : (applyCircularLayout cx cy nodes).find?
      (fun n => n.id == j) = none := by
    rw [List.find?_eq_none]
    intro x hx hc
    have hxid : x.id ∈ (applyCircularLayout cx cy nodes).map GraphNode.id :=
      List.mem_map_of_mem _ hx
    rw [layout_map_id] at hxid
    obtain ⟨m, hm, hmid⟩ := List.mem_map.mp hxid
    exact h m hm (hmid.trans (by simpa using hc))
  rw [hfind]
  rfl

/-- C7 amended. The layout is a deterministic function of the node list's
ids, types, connection lists and order: transforming the input by any map
that preserves id, type and connections (in particular, any change to the
incoming x/y coordinates) leaves every assigned position unchanged.  (By the
`c7_counterexample`, `connections` genuinely participates: the claim's
original list — node set, type, insertion order only — is too small.) -/
theorem c7_amended_layout_determined_by_ids_types_connections
    (nodes : List (GraphNode ℝ)) (f : GraphNode ℝ → GraphNode ℝ)
    (hid : ∀ n, (f n).id = n.id) (hty : ∀ n, (f n).type = n.type)
    (hconn : ∀ n, (f n).connections = n.connections)
    (hnd : (nodes.map GraphNode.id).Nodup) (cx cy : ℝ) (j : String) :
    posOf (applyCircularLayout cx cy (nodes.map f)) j =
      posOf (applyCircularLayout cx cy nodes) j := by
  cases nodes with
  | nil => rfl
  | cons n₀ rest =>
    have hids : ((n₀ :: rest).map f).map GraphNode.id =
        (n₀ :: rest).map GraphNode.id := by
      rw [List.map_map]
      exact List.map_congr_left fun n _ => hid n
    have hnd' : ((f n₀ :: rest.map f).map GraphNode.id).Nodup := by
      rw [← List.map_cons]
      rw [hids]
      exact hnd
    by_cases hjex : ∃ m ∈ (n₀ :: rest), m.id = j
    · obtain ⟨m, hm, rfl⟩ := hjex
      by_cases hjc : m.id = (centralNodeOf n₀ rest).id
      · rw [hjc]
        have h1 := layout_pos_central cx cy n₀ rest
        have h2 := layout_pos_central cx cy (f n₀) (rest.map f)
        rw [centralNodeOf_map f hty hconn, hid] at h2
        rw [List.map_cons, h1, h2]
      · have hmP : m ∈ peripheralOf n₀ rest := by
          unfold peripheralOf
          rw [List.mem_filter]
          exact ⟨hm, by simpa using hjc⟩
        have hmG : m ∈ groupedByType (peripheralOf n₀ rest) :=
          mem_groupedByType _ m hmP
        obtain ⟨⟨i, hi⟩, hgi⟩ := List.mem_iff_get.mp hmG
        have h1 := layout_pos_grouped cx cy n₀ rest hnd i hi
        rw [hgi] at h1
        have hPmap : peripheralOf (f n₀) (rest.map f) =
            (peripheralOf n₀ rest).map f :=
          peripheralOf_map f hid hty hconn n₀ rest
        have hGmap : groupedByType (peripheralOf (f n₀) (rest.map f)) =
            (groupedByType (peripheralOf n₀ rest)).map f := by
          rw [hPmap, groupedByType_map f hty]
        have hiLt : i < (groupedByType (peripheralOf (f n₀)
            (rest.map f))).length := by
          rw [hGmap, List.length_map]
          exact hi
        have h2 := layout_pos_grouped cx cy (f n₀) (rest.map f) hnd' i hiLt
        have hget : ((groupedByType (peripheralOf (f n₀)
            (rest.map f))).get ⟨i, hiLt⟩).id = m.id := by
          have e2 := List.get_of_eq hGmap ⟨i, hiLt⟩
          rw [e2, List.get_map, hid]
          exact congrArg GraphNode.id hgi
        have hlen : (peripheralOf (f n₀) (rest.map f)).length =
            (peripheralOf n₀ rest).length := by
          rw [hPmap, List.length_map]
        have hrad : layoutRadius (peripheralOf (f n₀) (rest.map f)) =
            layoutRadius (peripheralOf n₀ rest) := by
          unfold layoutRadius
          rw [hlen]
        rw [hget, hlen, hrad] at h2
        rw [List.map_cons, h2, h1]
    · push_neg at hjex
      have hnone1 : posOf (applyCircularLayout cx cy (n₀ :: rest)) j = none :=
        posOf_eq_none_of_not_mem cx cy _ j hjex
      have hjex' : ∀ m ∈ (n₀ :: rest).map f, m.id ≠ j := by
        intro m hm
        obtain ⟨a, ha, rfl⟩ := List.mem_map.mp hm
        rw [hid a]
        exact hjex a ha
      have hnone2 : posOf (applyCircularLayout cx cy
          ((n₀ :: rest).map f)) j = none :=
        posOf_eq_none_of_not_mem cx cy _ j hjex'
      rw [hnone1, hnone2]

/-- Witness for the amended C7: overwriting the incoming coordinates of two
concrete nodes does not change any assigned position. -/
theorem c7_amended_witness :
    posOf (applyCircularLayout 400 300
        (([⟨"a", "A", "condition", 0, 0, []⟩,
          ⟨"b", "B", "symptom", 7, 9, []⟩] : List (GraphNode ℝ)).map
          (fun n => { n with x := (5 : ℝ), y := (6 : ℝ) }))) "b" =
      posOf (applyCircularLayout 400 300
        ([⟨"a", "A", "condition", 0, 0, []⟩,
          ⟨"b", "B", "symptom", 7, 9, []⟩] : List (GraphNode ℝ))) "b" :=
  c7_amended_layout_determined_by_ids_types_connections
    ([⟨"a", "A", "condition", 0, 0, []⟩,
      ⟨"b", "B", "symptom", 7, 9, []⟩] : List (GraphNode ℝ))
    (fun n => { n with x := (5 : ℝ), y := (6 : ℝ) })
    (fun _ => rfl) (fun _ => rfl) (fun _ => rfl) (by decide) 400 300 "b"

/-- When the condition filter returns exactly one node, that node is the
selected central node. -/
theorem centralNodeOf_of_unique_condition (n₀ : GraphNode ℝ)
    (rest : List (GraphNode ℝ)) (c : GraphNode ℝ)
    (hc : (n₀ :: rest).filter (fun n => n.type == "condition") = [c]) :
    centralNodeOf n₀ rest = c := by
  unfold centralNodeOf
  rw [hc]
  rfl

/-- C4 amended. When the graph holds exactly one condition node, that node is
placed strictly nearer the center (400,300) than every non-condition node:
it sits exactly at the center while every other node sits on the circle of
positive radius.  (With two or more condition nodes the claim fails, see the
counterexample: only one condition node is centered, the rest share the
circle with the non-condition nodes.) -/
theorem c4_amended_unique_condition_strictly_central
    (nodes : List (GraphNode ℝ)) (c m : GraphNode ℝ)
    (hnd : (nodes.map GraphNode.id).Nodup)
    (hc : nodes.filter (fun n => n.type == "condition") = [c])
    (hm : m ∈ nodes) (hmty : m.type ≠ "condition") :
    ∃ pc pm, posOf (applyCircularLayout 400 300 nodes) c.id = some pc ∧
      posOf (applyCircularLayout 400 300 nodes) m.id = some pm ∧
      sqDist pc (400, 300) < sqDist pm (400, 300) := by
  cases nodes with
  | nil => simp at hc
  | cons n₀ rest =>
    have hcen : centralNodeOf n₀ rest = c :=
      centralNodeOf_of_unique_condition n₀ rest c hc
    have hcfil : c ∈ (n₀ :: rest).filter (fun n => n.type == "condition") := by
      rw [hc]
      exact List.mem_cons_self _ _
    have hcmem : c ∈ (n₀ :: rest) := List.mem_of_mem_filter hcfil
    have hmc : m ≠ c := by
      intro hcontra
      have hcty := (List.mem_filter.mp hcfil).2
      rw [← hcontra] at hcty
      exact hmty (by simpa using hcty)
    have hmid : m.id ≠ c.id := fun hcontra =>
      hmc (List.inj_on_of_nodup_map hnd hm hcmem hcontra)
    have h1 : posOf (applyCircularLayout 400 300 (n₀ :: rest)) c.id =
        some (400, 300) := by
      have h := layout_pos_central 400 300 n₀ rest
      rw [hcen] at h
      exact h
    have hmP : m ∈ peripheralOf n₀ rest := by
      unfold peripheralOf
      rw [List.mem_filter, hcen]
      exact ⟨hm, by simpa using hmid⟩
    obtain ⟨⟨i, hi⟩, hgi⟩ := List.mem_iff_get.mp (mem_groupedByType _ m hmP)
    have h2 := layout_pos_grouped 400 300 n₀ rest hnd i hi
    rw [hgi] at h2
    refine ⟨(400, 300), _, h1, h2, ?_⟩
    have hR : (180 : ℝ) ≤ layoutRadius (peripheralOf n₀ rest) :=
      le_max_left _ _
    have hRpos : (0 : ℝ) < layoutRadius (peripheralOf n₀ rest) :=
      lt_of_lt_of_le (by norm_num) hR
    have hval : sqDist
        (400 + layoutRadius (peripheralOf n₀ rest) *
          Real.cos (circleAngle i (peripheralOf n₀ rest).length),
         300 + layoutRadius (peripheralOf n₀ rest) *
          Real.sin (circleAngle i (peripheralOf n₀ rest).length))
        (400, 300) = layoutRadius (peripheralOf n₀ rest) ^ 2 := by
      unfold sqDist
      calc (400 + layoutRadius (peripheralOf n₀ rest) *
            Real.cos (circleAngle i (peripheralOf n₀ rest).length) - 400) ^ 2 +
          (300 + layoutRadius (peripheralOf n₀ rest) *
            Real.sin (circleAngle i (peripheralOf n₀ rest).length) - 300) ^ 2
          = layoutRadius (peripheralOf n₀ rest) ^ 2 *
            (Real.cos (circleAngle i (peripheralOf n₀ rest).length) ^ 2 +
              Real.sin (circleAngle i (peripheralOf n₀ rest).length) ^ 2) := by
            ring
        _ = layoutRadius (peripheralOf n₀ rest) ^ 2 * 1 := by
            rw [Real.cos_sq_add_sin_sq]
        _ = layoutRadius (peripheralOf n₀ rest) ^ 2 := mul_one _
    have hzero : sqDist ((400 : ℝ), (300 : ℝ)) (400, 300) = 0 := by
      unfold sqDist
      norm_num
    rw [hval, hzero]
    exact pow_pos hRpos 2

/-- Witness for the amended C4: one condition node and one symptom node. -/
theorem c4_amended_witness :
    ∃ pc pm, posOf (applyCircularLayout 400 300
        ([⟨"c", "Flu", "condition", 0, 0, []⟩,
          ⟨"s", "Cough", "symptom", 0, 0, []⟩] : List (GraphNode ℝ))) "c" =
        some pc ∧
      posOf (applyCircularLayout 400 300
        ([⟨"c", "Flu", "condition", 0, 0, []⟩,
          ⟨"s", "Cough", "symptom", 0, 0, []⟩] : List (GraphNode ℝ))) "s" =
        some pm ∧
      sqDist pc (400, 300) < sqDist pm (400, 300) :=
  c4_amended_unique_condition_strictly_central
    ([⟨"c", "Flu", "condition", 0, 0, []⟩,
      ⟨"s", "Cough", "symptom", 0, 0, []⟩] : List (GraphNode ℝ))
    ⟨"c", "Flu", "condition", 0, 0, []⟩ ⟨"s", "Cough", "symptom", 0, 0, []⟩
    (by decide) rfl (by simp) (by decide)

/-- C4 counterexample. With two condition nodes and one symptom node, only
the first condition node is centered; the second condition node and the
symptom node both land on the circle of radius 180, at equal distance from
the center (400,300) — the condition node "c2" is NOT strictly nearer the
center than the non-condition node "s". -/
theorem c4_counterexample :
    posOf (applyCircularLayout 400 300
        ([⟨"c1", "C1", "condition", 0, 0, []⟩,
          ⟨"c2", "C2", "condition", 0, 0, []⟩,
          ⟨"s", "S", "symptom", 0, 0, []⟩] : List (GraphNode ℝ))) "c2" =
      some (400, 120) ∧
    posOf (applyCircularLayout 400 300
        ([⟨"c1", "C1", "condition", 0, 0, []⟩,
          ⟨"c2", "C2", "condition", 0, 0, []⟩,
          ⟨"s", "S", "symptom", 0, 0, []⟩] : List (GraphNode ℝ))) "s" =
      some (400, 480) ∧
    ¬ (sqDist ((400 : ℝ), (120 : ℝ)) (400, 300) <
        sqDist ((400 : ℝ), (480 : ℝ)) (400, 300)) := by
  have hlen : (peripheralOf
      (⟨"c1", "C1", "condition", 0, 0, []⟩ : GraphNode ℝ)
      [⟨"c2", "C2", "condition", 0, 0, []⟩,
        ⟨"s", "S", "symptom", 0, 0, []⟩]).length = 2 := by decide
  have hrad : layoutRadius (peripheralOf
      (⟨"c1", "C1", "condition", 0, 0, []⟩ : GraphNode ℝ)
      [⟨"c2", "C2", "condition", 0, 0, []⟩,
        ⟨"s", "S", "symptom", 0, 0, []⟩]) = 180 := by
    rw [layoutRadius, hlen]
    norm_num
  have hang0 : circleAngle 0 2 = -(Real.pi / 2) := by
    rw [circleAngle]
    simp
  have hang1 : circleAngle 1 2 = Real.pi / 2 := by
    rw [circleAngle]
    push_cast
    ring
  refine ⟨?_, ?_, ?_⟩
  · have h2 : posOf (applyCircularLayout 400 300
        ([⟨"c1", "C1", "condition", 0, 0, []⟩,
          ⟨"c2", "C2", "condition", 0, 0, []⟩,
          ⟨"s", "S", "symptom", 0, 0, []⟩] : List (GraphNode ℝ))) "c2" =
        some (400 + layoutRadius (peripheralOf
            (⟨"c1", "C1", "condition", 0, 0, []⟩ : GraphNode ℝ)
            [⟨"c2", "C2", "condition", 0, 0, []⟩,
              ⟨"s", "S", "symptom", 0, 0, []⟩]) * Real.cos (circleAngle 0 2),
          300 + layoutRadius (peripheralOf
            (⟨"c1", "C1", "condition", 0, 0, []⟩ : GraphNode ℝ)
            [⟨"c2", "C2", "condition", 0, 0, []⟩,
              ⟨"s", "S", "symptom", 0, 0, []⟩]) * Real.sin (circleAngle 0 2)) :=
      layout_pos_grouped 400 300 ⟨"c1", "C1", "condition", 0, 0, []⟩
        [⟨"c2", "C2", "condition", 0, 0, []⟩, ⟨"s", "S", "symptom", 0, 0, []⟩]
        (by decide) 0 (by decide)
    rw [hrad, hang0] at h2
    simp only [Real.cos_neg, Real.cos_pi_div_two, Real.sin_neg,
      Real.sin_pi_div_two] at h2
    norm_num at h2
    exact h2
  · have h3 : posOf (applyCircularLayout 400 300
        ([⟨"c1", "C1", "condition", 0, 0, []⟩,
          ⟨"c2", "C2", "condition", 0, 0, []⟩,
          ⟨"s", "S", "symptom", 0, 0, []⟩] : List (GraphNode ℝ))) "s" =
        some (400 + layoutRadius (peripheralOf
            (⟨"c1", "C1", "condition", 0, 0, []⟩ : GraphNode ℝ)
            [⟨"c2", "C2", "condition", 0, 0, []⟩,
              ⟨"s", "S", "symptom", 0, 0, []⟩]) * Real.cos (circleAngle 1 2),
          300 + layoutRadius (peripheralOf
            (⟨"c1", "C1", "condition", 0, 0, []⟩ : GraphNode ℝ)
            [⟨"c2", "C2", "condition", 0, 0, []⟩,
              ⟨"s", "S", "symptom", 0, 0, []⟩]) * Real.sin (circleAngle 1 2)) :=
      layout_pos_grouped 400 300 ⟨"c1", "C1", "condition", 0, 0, []⟩
        [⟨"c2", "C2", "condition", 0, 0, []⟩, ⟨"s", "S", "symptom", 0, 0, []⟩]
        (by decide) 1 (by decide)
    rw [hrad, hang1] at h3
    simp only [Real.cos_pi_div_two, Real.sin_pi_div_two] at h3
    norm_num at h3
    exact h3
  · unfold sqDist
    norm_num

/-- With exactly one condition node and distinct ids, the peripheral list is
precisely the non-condition sublist of the input, in input order. -/
theorem peripheral_eq_nonconditions (n₀ : GraphNode ℝ)
    (rest : List (GraphNode ℝ)) (c : GraphNode ℝ)
    (hnd : ((n₀ :: rest).map GraphNode.id).Nodup)
    (hc : (n₀ :: rest).filter (fun n => n.type == "condition") = [c]) :
    peripheralOf n₀ rest =
      (n₀ :: rest).filter (fun n => !(n.type == "condition")) := by
  unfold peripheralOf
  rw [centralNodeOf_of_unique_condition n₀ rest c hc]
  refine List.filter_congr ?_
  intro n hn
  have hcfil : c ∈ (n₀ :: rest).filter (fun n => n.type == "condition") := by
    rw [hc]
    exact List.mem_cons_self _ _
  have hcmem : c ∈ (n₀ :: rest) := List.mem_of_mem_filter hcfil
  have hcty : (c.type == "condition") = true := (List.mem_filter.mp hcfil).2
  by_cases hnt : n.type = "condition"
  · have hnc : n ∈ (n₀ :: rest).filter (fun n => n.type == "condition") :=
      List.mem_filter.mpr ⟨hn, by simpa using hnt⟩
    rw [hc] at hnc
    have hneq : n = c := by simpa using hnc
    rw [hneq]
    simp [hcty]
  · have hne : n ≠ c := fun hq => hnt (by rw [hq]; simpa using hcty)
    have hnid : n.id ≠ c.id :=
      fun hq => hne (List.inj_on_of_nodup_map hnd hn hcmem hq)
    simp [hnid, hnt]

/-- C5. With exactly one condition node, the layout places that node exactly
at the center (400,300); the engine enumerates the non-condition nodes
(grouped by type — a permutation of their input order) and places the i-th of
the M enumerated nodes on the circle of radius `max 180 (120 + 10·M)` at
angle `(i/M)·2π − π/2`: equal angular spacing with a fixed offset. -/
theorem c5_single_condition_radial_layout
    (nodes : List (GraphNode ℝ)) (c : GraphNode ℝ)
    (hnd : (nodes.map GraphNode.id).Nodup)
    (hc : nodes.filter (fun n => n.type == "condition") = [c]) :
    posOf (applyCircularLayout 400 300 nodes) c.id = some (400, 300) ∧
    List.Perm
      (groupedByType (nodes.filter (fun n => !(n.type == "condition"))))
      (nodes.filter (fun n => !(n.type == "condition"))) ∧
    ∀ (i : ℕ) (h : i < (groupedByType (nodes.filter
        (fun n => !(n.type == "condition")))).length),
      posOf (applyCircularLayout 400 300 nodes)
          ((groupedByType (nodes.filter
            (fun n => !(n.type == "condition")))).get ⟨i, h⟩).id =
        some (400 + layoutRadius (nodes.filter
            (fun n => !(n.type == "condition"))) *
          Real.cos (circleAngle i (nodes.filter
            (fun n => !(n.type == "condition"))).length),
          300 + layoutRadius (nodes.filter
            (fun n => !(n.type == "condition"))) *
          Real.sin (circleAngle i (nodes.filter
            (fun n => !(n.type == "condition"))).length)) := by
  cases nodes with
  | nil => simp at hc
  | cons n₀ rest =>
    have hP := peripheral_eq_nonconditions n₀ rest c hnd hc
    refine ⟨?_, groupedByType_perm _, ?_⟩
    · have h := layout_pos_central 400 300 n₀ rest
      rw [centralNodeOf_of_unique_condition n₀ rest c hc] at h
      exact h
    · intro i h
      have hi' : i < (groupedByType (peripheralOf n₀ rest)).length := by
        rw [hP]
        exact h
      have hrad : layoutRadius ((n₀ :: rest).filter
          (fun n => !(n.type == "condition"))) =
          layoutRadius (peripheralOf n₀ rest) := by
        rw [hP]
      have hlen2 : ((n₀ :: rest).filter
          (fun n => !(n.type == "condition"))).length =
          (peripheralOf n₀ rest).length := by
        rw [hP]
      have e2 := List.get_of_eq (congrArg groupedByType hP.symm) ⟨i, h⟩
      rw [e2, hrad, hlen2]
      exact layout_pos_grouped 400 300 n₀ rest hnd i hi'

/-- Witness for C5: one condition node and three non-condition nodes. -/
theorem c5_witness :
    posOf (applyCircularLayout 400 300
        ([⟨"c", "Flu", "condition", 0, 0, []⟩,
          ⟨"s", "Cough", "symptom", 0, 0, []⟩,
          ⟨"m", "Aspirin", "medication", 0, 0, []⟩,
          ⟨"p", "X-ray", "procedure", 0, 0, []⟩] : List (GraphNode ℝ))) "c" =
      some (400, 300) ∧
    List.Perm
      (groupedByType (([⟨"c", "Flu", "condition", 0, 0, []⟩,
          ⟨"s", "Cough", "symptom", 0, 0, []⟩,
          ⟨"m", "Aspirin", "medication", 0, 0, []⟩,
          ⟨"p", "X-ray", "procedure", 0, 0, []⟩] : List (GraphNode ℝ)).filter
        (fun n => !(n.type == "condition"))))
      (([⟨"c", "Flu", "condition", 0, 0, []⟩,
          ⟨"s", "Cough", "symptom", 0, 0, []⟩,
          ⟨"m", "Aspirin", "medication", 0, 0, []⟩,
          ⟨"p", "X-ray", "procedure", 0, 0, []⟩] : List (GraphNode ℝ)).filter
        (fun n => !(n.type == "condition"))) :=
  ⟨(c5_single_condition_radial_layout
      ([⟨"c", "Flu", "condition", 0, 0, []⟩,
        ⟨"s", "Cough", "symptom", 0, 0, []⟩,
        ⟨"m", "Aspirin", "medication", 0, 0, []⟩,
        ⟨"p", "X-ray", "procedure", 0, 0, []⟩] : List (GraphNode ℝ))
      ⟨"c", "Flu", "condition", 0, 0, []⟩ (by decide) rfl).1,
    (c5_single_condition_radial_layout
      ([⟨"c", "Flu", "condition", 0, 0, []⟩,
        ⟨"s", "Cough", "symptom", 0, 0, []⟩,
        ⟨"m", "Aspirin", "medication", 0, 0, []⟩,
        ⟨"p", "X-ray", "procedure", 0, 0, []⟩] : List (GraphNode ℝ))
      ⟨"c", "Flu", "condition", 0, 0, []⟩ (by decide) rfl).2.1⟩
